import Mathlib

set_option autoImplicit false

/-!
Verification of the version-control introspection layer of this repository.

The repository ships `pre_commit/util.py` (embedded below from the source)
and the test suite `tests/git_test.py`.  The module `pre_commit/git.py`
itself is not part of the sources available here, so its operations
(`zsplit`, `get_root`, `get_staged_files`, `is_in_merge_conflict`,
`get_conflicted_files`, `parse_merge_msg_for_conflicts`,
`get_files_matching`) are modelled from the specification, with the test
suite used as evidence where the specification is silent.
-/

/-- Modelled from the spec: the NUL-stream splitter `zsplit` lives in
`pre_commit/git.py`, which is not under `src/` (only its tests are).
`splitChar sep s` is the plain separator split (Python `s.split(sep)`):
splitting the empty string yields one empty token, and a string with `n`
occurrences of `sep` yields `n + 1` tokens, empty tokens included. -/
def splitChar (sep : Char) : List Char → List (List Char)
  | [] => [[]]
  | c :: rest =>
    match splitChar sep rest with
    | [] => [[]]
    | t :: ts => if c = sep then [] :: t :: ts else (c :: t) :: ts

theorem splitChar_ne_nil (sep : Char) (s : List Char) : splitChar sep s ≠ [] := by
  induction s with
  | nil => simp [splitChar]
  | cons c rest ih =>
    simp only [splitChar]
    cases h : splitChar sep rest with
    | nil => exact absurd h ih
    | cons t ts => by_cases hc : c = sep <;> simp [hc]

theorem splitChar_length (sep : Char) (s : List Char) :
    (splitChar sep s).length = s.count sep + 1 := by
  induction s with
  | nil => simp [splitChar]
  | cons c rest ih =>
    simp only [splitChar]
    cases h : splitChar sep rest with
    | nil => exact absurd h (splitChar_ne_nil sep rest)
    | cons t ts =>
      rw [h] at ih
      by_cases hc : c = sep <;>
        simp_all [List.count_cons, List.length_cons]

/-- Modelled from the spec: `zsplit` splits its input on the NUL byte; an
empty input yields the empty sequence, and when the input ends with a NUL
the single trailing empty token produced by the split is discarded — one,
not all trailing empties.  Tokens are never trimmed or filtered otherwise. -/
def zsplitChars (s : List Char) : List (List Char) :=
  if s = [] then []
  else if s.getLast? = some '\x00' then (splitChar '\x00' s).dropLast
  else splitChar '\x00' s

/-- Modelled from the spec: string-level wrapper of `zsplitChars`, the
signature `zsplit(s)` of `pre_commit/git.py` takes and returns strings. -/
def zsplit (s : String) : List String :=
  (zsplitChars s.toList).map (fun t => String.mk t)

/-- C4: `zsplit` splits on NUL bytes and discards exactly one trailing empty
token when the input ends with a NUL (the result has exactly `count` tokens,
one fewer than the raw split, no matter how many trailing NULs there are);
inputs not ending in NUL are split without dropping anything, and the four
concrete behaviours `zsplit "" = []`, `zsplit "foo" = ["foo"]`,
`zsplit "foo\x00bar\x00" = ["foo", "bar"]`, `zsplit "foo\x00" = ["foo"]` hold. -/
theorem zsplit_spec :
    (∀ s : List Char, s.getLast? = some '\x00' →
        zsplitChars s = (splitChar '\x00' s).dropLast ∧
        (zsplitChars s).length = s.count '\x00') ∧
    (∀ s : List Char, s ≠ [] → s.getLast? ≠ some '\x00' →
        zsplitChars s = splitChar '\x00' s ∧
        (zsplitChars s).length = s.count '\x00' + 1) ∧
    zsplit "" = [] ∧
    zsplit "foo" = ["foo"] ∧
    zsplit "foo\x00bar\x00" = ["foo", "bar"] ∧
    zsplit "foo\x00" = ["foo"] := by
  refine ⟨?_, ?_, by decide, by decide, by decide, by decide⟩
  · intro s hlast
    have hne : s ≠ [] := by
      intro h
      rw [h] at hlast
      simp at hlast
    have hdef : zsplitChars s = (splitChar '\x00' s).dropLast := by
      simp [zsplitChars, hne, hlast]
    refine ⟨hdef, ?_⟩
    rw [hdef, List.length_dropLast, splitChar_length]
    omega
  · intro s hne hlast
    have hdef : zsplitChars s = splitChar '\x00' s := by
      simp [zsplitChars, hne, hlast]
    exact ⟨hdef, by rw [hdef, splitChar_length]⟩

/-- Witness for C4: the general clauses of `zsplit_spec` applied at the
concrete inputs "a\x00" (ends in NUL) and "a" (does not). -/
theorem zsplit_spec_witness :
    (zsplitChars ("a\x00".toList) = (splitChar '\x00' ("a\x00".toList)).dropLast ∧
      (zsplitChars ("a\x00".toList)).length = ("a\x00".toList).count '\x00') ∧
    (zsplitChars ("a".toList) = splitChar '\x00' ("a".toList) ∧
      (zsplitChars ("a".toList)).length = ("a".toList).count '\x00' + 1) :=
  ⟨zsplit_spec.1 ("a\x00".toList) (by decide),
   zsplit_spec.2.1 ("a".toList) (by decide) (by decide)⟩

/-- A memoization cache, embedding the `wrapper._cache` dict of
`memoize_by_cwd` in `src/pre_commit/util.py`: an association list from keys
`(cwd,) + args` to cached return values (first match wins, as a dict with
no duplicate keys). -/
structure MemoCache (α β : Type) where
  entries : List ((String × α) × β)

/-- The initial `wrapper._cache = {}`. -/
def MemoCache.empty {α β : Type} : MemoCache α β := ⟨[]⟩

/-- Dict lookup `wrapper._cache[key]`, `none` when the key raises `KeyError`. -/
def MemoCache.lookup {α β : Type} [DecidableEq α] (c : MemoCache α β)
    (key : String × α) : Option β :=
  (c.entries.find? (fun e => e.1 = key)).map (fun e => e.2)

/-- Embedding of one invocation of the `wrapper` closure produced by
`memoize_by_cwd(func)` in `src/pre_commit/util.py`: the key is
`(cwd,) + args`; a cache hit returns the cached value, a `KeyError` invokes
`func(*args)` and stores the result under the key.  The returned triple is
(return value, cache afterwards, whether `func` was invoked). -/
def memoize_by_cwd_call {α β : Type} [DecidableEq α] (func : α → β)
    (c : MemoCache α β) (cwd : String) (args : α) : β × MemoCache α β × Bool :=
  let key := (cwd, args)
  match c.lookup key with
  | some v => (v, c, false)
  | none =>
    let ret := func args
    (ret, ⟨(key, ret) :: c.entries⟩, true)

theorem memoize_by_cwd_call_hit {α β : Type} [DecidableEq α] (func : α → β)
    (c : MemoCache α β) (cwd : String) (args : α) (v : β)
    (h : c.lookup (cwd, args) = some v) :
    memoize_by_cwd_call func c cwd args = (v, c, false) := by
  simp [memoize_by_cwd_call, h]

theorem memoize_by_cwd_call_miss {α β : Type} [DecidableEq α] (func : α → β)
    (c : MemoCache α β) (cwd : String) (args : α)
    (h : c.lookup (cwd, args) = none) :
    memoize_by_cwd_call func c cwd args
      = (func args, ⟨(((cwd, args), func args)) :: c.entries⟩, true) := by
  simp [memoize_by_cwd_call, h]

theorem MemoCache.lookup_cons_ne {α β : Type} [DecidableEq α]
    (k key : String × α) (v : β) (rest : List ((String × α) × β))
    (h : key ≠ k) :
    (MemoCache.mk ((k, v) :: rest)).lookup key = (MemoCache.mk rest).lookup key := by
  unfold MemoCache.lookup
  rw [List.find?_cons_of_neg]
  simp only [decide_eq_true_eq]
  exact fun hh => h hh.symm

theorem memoize_by_cwd_lookup_after {α β : Type} [DecidableEq α] (func : α → β)
    (c : MemoCache α β) (cwd : String) (args : α) :
    (memoize_by_cwd_call func c cwd args).2.1.lookup (cwd, args)
      = some (memoize_by_cwd_call func c cwd args).1 := by
  cases h : c.lookup (cwd, args) with
  | some v => simp [memoize_by_cwd_call_hit func c cwd args v h, h]
  | none => simp [memoize_by_cwd_call_miss func c cwd args h, MemoCache.lookup]

/-- C5: the cache key of `memoize_by_cwd` is the pair (current working
directory, argument tuple): a hit returns exactly the value stored under
`(cwd, args)` without invoking the function; a miss invokes the function even
when a different working directory has a cached value for the same arguments
(so results are never shared across working directories); and a repeated call
with the same working directory and arguments returns the value of the first
call without re-invoking the function. -/
theorem memoize_by_cwd_spec {α β : Type} [DecidableEq α] (func : α → β)
    (c : MemoCache α β) (cwd cwd2 : String) (args : α) :
    (∀ v, c.lookup (cwd, args) = some v →
        memoize_by_cwd_call func c cwd args = (v, c, false)) ∧
    (c.lookup (cwd, args) = none →
        (memoize_by_cwd_call func c cwd args).1 = func args ∧
        (memoize_by_cwd_call func c cwd args).2.2 = true) ∧
    (cwd2 ≠ cwd →
        (memoize_by_cwd_call func
          (memoize_by_cwd_call func MemoCache.empty cwd args).2.1
          cwd2 args).2.2 = true) ∧
    (memoize_by_cwd_call func (memoize_by_cwd_call func c cwd args).2.1 cwd args
        = ((memoize_by_cwd_call func c cwd args).1,
           (memoize_by_cwd_call func c cwd args).2.1, false)) := by
  refine ⟨fun v h => memoize_by_cwd_call_hit func c cwd args v h, ?_, ?_, ?_⟩
  · intro h
    simp [memoize_by_cwd_call_miss func c cwd args h]
  · intro hne
    have h0 : (MemoCache.empty : MemoCache α β).lookup (cwd, args) = none := by
      simp [MemoCache.lookup, MemoCache.empty]
    have hafter : (memoize_by_cwd_call func MemoCache.empty cwd args).2.1.lookup
        (cwd2, args) = none := by
      rw [memoize_by_cwd_call_miss func MemoCache.empty cwd args h0]
      show (MemoCache.mk [(((cwd, args)), func args)] : MemoCache α β).lookup
        (cwd2, args) = none
      rw [MemoCache.lookup_cons_ne (cwd, args) (cwd2, args) (func args) []
        (by simp [hne])]
      simp [MemoCache.lookup]
    rw [memoize_by_cwd_call_miss func _ cwd2 args hafter]
  · exact memoize_by_cwd_call_hit func _ cwd args _
      (memoize_by_cwd_lookup_after func c cwd args)

/-- Witness for C5: `memoize_by_cwd_spec` at a concrete function, an empty
cache and the two distinct working directories "/a" and "/b". -/
theorem memoize_by_cwd_spec_witness :
    ("/b" : String) ≠ "/a" ∧
    (memoize_by_cwd_call String.length
      (memoize_by_cwd_call String.length MemoCache.empty "/a" "x").2.1
      "/b" "x").2.2 = true :=
  ⟨by decide,
   (memoize_by_cwd_spec String.length MemoCache.empty "/a" "/b" "x").2.2.1 (by decide)⟩

/-- A Python instance as `cached_property` sees it: just its `__dict__`,
an association list from attribute names to values (first match wins). -/
structure PyInstance (β : Type) where
  dict : List (String × β)

/-- Attribute lookup in an instance `__dict__`. -/
def PyInstance.lookup {β : Type} (o : PyInstance β) (attrName : String) : Option β :=
  (o.dict.find? (fun e => e.1 = attrName)).map (fun e => e.2)

/-- Embedding of the `cached_property` class of `src/pre_commit/util.py`:
it keeps the wrapped function `_func` and its `__name__` (the key under
which the computed value is stored in the instance `__dict__`). -/
structure cached_property (β : Type) where
  name : String
  func : PyInstance β → β

/-- The body of `cached_property.__get__` on a non-`None` instance: compute
`value = self._func(obj)`, store it via `obj.__dict__[self.__name__] = value`,
and return it. -/
def cached_property.getOnInstance {β : Type} (cp : cached_property β)
    (o : PyInstance β) : β × PyInstance β :=
  let value := cp.func o
  (value, ⟨(cp.name, value) :: o.dict⟩)

/-- Embedding of `cached_property.__get__(self, obj, cls)`: with `obj is None`
(access on the class itself) it returns the descriptor `self` unchanged,
otherwise it computes, stores and returns the value. -/
def cached_property.dunderGet {β : Type} (cp : cached_property β)
    (obj : Option (PyInstance β)) : cached_property β ⊕ (β × PyInstance β) :=
  match obj with
  | none => Sum.inl cp
  | some o => Sum.inr (cp.getOnInstance o)

/-- Python attribute access `getattr(o, cp.name)` when the class attribute is
the non-data descriptor `cp` (it defines `__get__` but no `__set__`), so the
instance `__dict__` takes precedence and the descriptor is consulted only on
a miss.  Returns (value, instance afterwards, whether `_func` was invoked). -/
def pyGetattr {β : Type} (cp : cached_property β) (o : PyInstance β) :
    β × PyInstance β × Bool :=
  match o.lookup cp.name with
  | some v => (v, o, false)
  | none =>
    match cp.dunderGet (some o) with
    | Sum.inl _ => (cp.func o, o, true)
    | Sum.inr (v, o2) => (v, o2, true)

theorem pyGetattr_hit {β : Type} (cp : cached_property β) (o : PyInstance β)
    (v : β) (h : o.lookup cp.name = some v) :
    pyGetattr cp o = (v, o, false) := by
  simp [pyGetattr, h]

theorem pyGetattr_miss {β : Type} (cp : cached_property β) (o : PyInstance β)
    (h : o.lookup cp.name = none) :
    pyGetattr cp o = (cp.func o, ⟨(cp.name, cp.func o) :: o.dict⟩, true) := by
  simp [pyGetattr, h, cached_property.dunderGet, cached_property.getOnInstance]

theorem pyGetattr_lookup_after {β : Type} (cp : cached_property β)
    (o : PyInstance β) :
    (pyGetattr cp o).2.1.lookup cp.name = some (pyGetattr cp o).1 := by
  cases h : o.lookup cp.name with
  | some v => simp [pyGetattr_hit cp o v h, h]
  | none => simp [pyGetattr_miss cp o h, PyInstance.lookup]

/-- C10: the function wrapped by `cached_property` is invoked at most once
per instance.  The first access (no entry under the property name yet)
invokes the function and stores the value in the instance `__dict__` under
`cp.name`; any access on an instance that already has the entry returns the
stored value without invoking the function; consequently a second access
right after the first returns the same value with no further invocation; and
accessing the descriptor on the class itself (`obj is None`) returns the
descriptor object unchanged. -/
theorem cached_property_spec {β : Type} (cp : cached_property β)
    (o : PyInstance β) :
    (o.lookup cp.name = none →
        pyGetattr cp o = (cp.func o, ⟨(cp.name, cp.func o) :: o.dict⟩, true) ∧
        (pyGetattr cp o).2.1.lookup cp.name = some (cp.func o)) ∧
    (∀ v, o.lookup cp.name = some v → pyGetattr cp o = (v, o, false)) ∧
    (pyGetattr cp (pyGetattr cp o).2.1
        = ((pyGetattr cp o).1, (pyGetattr cp o).2.1, false)) ∧
    cp.dunderGet none = Sum.inl cp := by
  refine ⟨?_, fun v h => pyGetattr_hit cp o v h, ?_, rfl⟩
  · intro h
    refine ⟨pyGetattr_miss cp o h, ?_⟩
    rw [pyGetattr_lookup_after, pyGetattr_miss cp o h]
  · exact pyGetattr_hit cp _ _ (pyGetattr_lookup_after cp o)

/-- Witness for C10: `cached_property_spec` at a concrete property (the
wrapped function returns the current `__dict__` size) and a fresh instance
with an empty `__dict__`. -/
theorem cached_property_spec_witness :
    pyGetattr ⟨"x", fun o => o.dict.length⟩ (⟨[]⟩ : PyInstance Nat)
        = (0, ⟨[("x", 0)]⟩, true) ∧
    (pyGetattr ⟨"x", fun o => o.dict.length⟩ (⟨[]⟩ : PyInstance Nat)).2.1.lookup "x"
        = some 0 :=
  (cached_property_spec ⟨"x", fun o => o.dict.length⟩ ⟨[]⟩).1 (by decide)

/-- Modelled from the spec: the Python `re` module is external to the
repository; this models the fragment of its syntax used by the spec and the
test suite (literal characters, the wildcard '.', the Kleene asterisk on an
atom, backslash escapes, and the anchors at the two pattern ends).  An atom
matches a single character. -/
inductive RAtom where
  | chr (c : Char)
  | dot
deriving DecidableEq

/-- A pattern element: a plain atom or an atom under the Kleene asterisk. -/
inductive RElem where
  | once (a : RAtom)
  | many (a : RAtom)
deriving DecidableEq

/-- A compiled pattern: optional anchors at both ends around a list of
elements. -/
structure RPattern where
  anchorStart : Bool
  elems : List RElem
  anchorEnd : Bool
deriving DecidableEq

/-- Whether an atom matches one character. -/
def RAtom.matchesChar : RAtom → Char → Bool
  | .chr c, d => c = d
  | .dot, _ => true

/-- Matching a list of elements against a string starting at its head; with
`anchorEnd` the whole remaining string must be consumed, without it any
prefix match succeeds.  A starred atom consumes any number of consecutive
characters matching the atom (all the ways are tried, so the match
backtracks exactly as the external engine does on this fragment). -/
def matchCore (anchorEnd : Bool) : List RElem → List Char → Bool
  | [], s => if anchorEnd then s.isEmpty else true
  | .once _ :: _, [] => false
  | .once a :: es, c :: cs => a.matchesChar c && matchCore anchorEnd es cs
  | .many a :: es, s =>
    (List.range ((s.takeWhile a.matchesChar).length + 1)).any
      (fun k => matchCore anchorEnd es (s.drop k))

/-- Search semantics (Python `re.search`): an unanchored pattern may begin
its match at any position of the string. -/
def reSearch (p : RPattern) (s : List Char) : Bool :=
  if p.anchorStart then matchCore p.anchorEnd p.elems s
  else (List.range (s.length + 1)).any (fun i => matchCore p.anchorEnd p.elems (s.drop i))

/-- Parse one character of a pattern body into an atom. -/
def toAtom (c : Char) : RAtom :=
  if c = '.' then .dot else .chr c

/-- Parse a pattern body (anchors already stripped) into elements. -/
def parseElems : List Char → List RElem
  | [] => []
  | '\\' :: c :: '*' :: rest => .many (RAtom.chr c) :: parseElems rest
  | '\\' :: c :: rest => .once (RAtom.chr c) :: parseElems rest
  | c :: '*' :: rest => .many (toAtom c) :: parseElems rest
  | c :: rest => .once (toAtom c) :: parseElems rest

/-- Compile a pattern string: a leading '^' anchors the start, a trailing
(unescaped) '$' anchors the end, the rest is the element body. -/
def reCompile (p : String) : RPattern :=
  let cs := p.toList
  let startStripped :=
    match cs with
    | '^' :: rest => (true, rest)
    | _ => (false, cs)
  let endStripped :=
    if startStripped.2.getLast? = some '$' then (true, startStripped.2.dropLast)
    else (false, startStripped.2)
  ⟨startStripped.1, parseElems endStripped.2, endStripped.1⟩

/-- Modelled from the spec: what the filesystem says about a candidate path
when `os.path.lexists` is asked — a present file (or directory), a symbolic
link whose target does not exist, or nothing at all. -/
inductive FsEntry where
  | present
  | brokenSymlink
  | absent
deriving DecidableEq

/-- `os.path.lexists`: true for anything on disk, a broken symbolic link
included; false only when the path is absent. -/
def lexists : FsEntry → Bool
  | .present => true
  | .brokenSymlink => true
  | .absent => false

/-- Modelled from the spec: `get_files_matching` of `pre_commit/git.py` is
not under `src/`.  Per the spec, the wrapper compiles the include and exclude
expressions and keeps a candidate iff the include pattern search-matches it
and the exclude pattern does not; per the spec's broken-symbolic-link clause
and the tests `test_get_files_matching_base`, `test_matches_broken_symlink`
and `test_does_not_include_deleted_fileS`, candidates that do not exist on
disk are additionally dropped through a symlink-tolerant existence test
(`lexists`).  `fs` is the ambient filesystem, `strategy` the zero-argument
filenames provider's output; the result models the returned set by its
members (deduplicated). -/
def get_files_matching (fs : String → FsEntry) (strategy : List String)
    (includeExpr excludeExpr : String) : List String :=
  (strategy.filter (fun f =>
      reSearch (reCompile includeExpr) f.toList &&
      !reSearch (reCompile excludeExpr) f.toList &&
      lexists (fs f))).dedup

theorem mem_get_files_matching (fs : String → FsEntry) (strategy : List String)
    (includeExpr excludeExpr f : String) :
    f ∈ get_files_matching fs strategy includeExpr excludeExpr ↔
      f ∈ strategy ∧
      reSearch (reCompile includeExpr) f.toList = true ∧
      reSearch (reCompile excludeExpr) f.toList = false ∧
      lexists (fs f) = true := by
  unfold get_files_matching
  rw [List.mem_dedup, List.mem_filter]
  simp only [Bool.and_eq_true, Bool.not_eq_true']
  tauto

theorem reSearch_empty_pattern (s : List Char) : reSearch (reCompile "") s = true := by
  have h : reCompile "" = ⟨false, [], false⟩ := by decide
  rw [h]
  simp only [reSearch]
  rw [if_neg (by simp)]
  rw [List.any_eq_true]
  exact ⟨0, by simp, by simp [matchCore]⟩

theorem reSearch_caret_dollar (s : List Char) :
    reSearch (reCompile "^$") s = s.isEmpty := by
  have h : reCompile "^$" = ⟨true, [], true⟩ := by decide
  rw [h]
  simp [reSearch, matchCore]

/-- The candidate filename provider of the fixture `get_files_matching_func`
in `tests/git_test.py`. -/
def testMatchingStrategy : List String :=
  [".pre-commit-hooks.yaml", "pre_commit/main.py", "pre_commit/git.py",
   "im_a_file_that_doesnt_exist.py"]

/-- The filesystem of `test_get_files_matching_base`: every candidate exists
on disk except `im_a_file_that_doesnt_exist.py`. -/
def testMatchingFs : String → FsEntry :=
  fun f => if f = "im_a_file_that_doesnt_exist.py" then .absent else .present

/-- Counterexample to C2 as stated: with the candidate provider and patterns
of `test_get_files_matching_base` (include "", exclude "^$"), the candidate
`im_a_file_that_doesnt_exist.py` search-matches the include pattern and does
not search-match the exclude pattern, yet it is not in the result, because
the matcher also drops files that do not exist on disk. -/
theorem get_files_matching_counterexample :
    reSearch (reCompile "") "im_a_file_that_doesnt_exist.py".toList = true ∧
    reSearch (reCompile "^$") "im_a_file_that_doesnt_exist.py".toList = false ∧
    "im_a_file_that_doesnt_exist.py" ∈ testMatchingStrategy ∧
    "im_a_file_that_doesnt_exist.py" ∉
      get_files_matching testMatchingFs testMatchingStrategy "" "^$" := by
  decide

/-- C2 (amended): the result of `get_files_matching` contains a candidate iff
the include pattern search-matches it, the exclude pattern does not
search-match it, AND the candidate exists on disk under the symlink-tolerant
existence test; the empty include pattern search-matches every file and the
exclude pattern "^$" search-matches no nonempty filename. -/
theorem get_files_matching_spec (fs : String → FsEntry) (strategy : List String)
    (includeExpr excludeExpr f : String) :
    (f ∈ get_files_matching fs strategy includeExpr excludeExpr ↔
      f ∈ strategy ∧
      reSearch (reCompile includeExpr) f.toList = true ∧
      reSearch (reCompile excludeExpr) f.toList = false ∧
      lexists (fs f) = true) ∧
    (∀ s : List Char, reSearch (reCompile "") s = true) ∧
    (∀ s : List Char, reSearch (reCompile "^$") s = s.isEmpty) :=
  ⟨mem_get_files_matching fs strategy includeExpr excludeExpr f,
   reSearch_empty_pattern, reSearch_caret_dollar⟩

/-- Witness for C2: the membership characterization of
`get_files_matching_spec` evaluated on the concrete scenario of
`test_get_files_matching_base`. -/
theorem get_files_matching_spec_witness :
    "pre_commit/main.py" ∈
      get_files_matching testMatchingFs testMatchingStrategy "" "^$" :=
  (get_files_matching_spec testMatchingFs testMatchingStrategy "" "^$"
    "pre_commit/main.py").1.mpr ⟨by decide, by decide, by decide, by decide⟩

/-- C9: the matcher drops every candidate that does not exist on disk even
when it search-matches the include pattern and not the exclude pattern, and
the existence test is symlink-tolerant: a broken symbolic link (`lexists`
true) still counts as existing and a matching broken-symlink candidate is
retained. -/
theorem get_files_matching_existence (fs : String → FsEntry)
    (strategy : List String) (includeExpr excludeExpr f : String) :
    (fs f = FsEntry.absent →
      f ∉ get_files_matching fs strategy includeExpr excludeExpr) ∧
    (f ∈ strategy →
      reSearch (reCompile includeExpr) f.toList = true →
      reSearch (reCompile excludeExpr) f.toList = false →
      fs f = FsEntry.brokenSymlink →
      f ∈ get_files_matching fs strategy includeExpr excludeExpr) := by
  constructor
  · intro habs hmem
    have h := (mem_get_files_matching fs strategy includeExpr excludeExpr f).mp hmem
    rw [habs] at h
    simp [lexists] at h
  · intro hmem hinc hexc hbl
    exact (mem_get_files_matching fs strategy includeExpr excludeExpr f).mpr
      ⟨hmem, hinc, hexc, by rw [hbl]; rfl⟩

/-- Witness for C9: `get_files_matching_existence` on the scenario of
`test_matches_broken_symlink` (a broken symlink named "link" is retained)
and on `test_get_files_matching_base` (the absent candidate is dropped). -/
theorem get_files_matching_existence_witness :
    "link" ∈ get_files_matching (fun _ => FsEntry.brokenSymlink) ["link"] "" "^$" ∧
    "im_a_file_that_doesnt_exist.py" ∉
      get_files_matching testMatchingFs testMatchingStrategy "exist.py" "^$" :=
  ⟨(get_files_matching_existence (fun _ => FsEntry.brokenSymlink) ["link"]
      "" "^$" "link").2 (by decide) (by decide) (by decide) rfl,
   (get_files_matching_existence testMatchingFs testMatchingStrategy
      "exist.py" "^$" "im_a_file_that_doesnt_exist.py").1 (by decide)⟩

/-- Modelled from the spec: trim the leading tab indent of a conflicted-file
line in the merge-message "Conflicts:" block. -/
def stripIndent (l : List Char) : List Char :=
  match l with
  | '\t' :: rest => rest
  | _ => l

/-- Modelled from the spec: locate the line that is exactly `Conflicts:` and
return the block of following lines up to (excluding) the first blank line
or the end of the message; absence of the marker line yields the empty
block without being an error. -/
def conflictsSection : List (List Char) → List (List Char)
  | [] => []
  | l :: rest =>
    if l = "Conflicts:".toList then rest.takeWhile (fun x => x ≠ [])
    else conflictsSection rest

/-- Modelled from the spec: `parse_merge_msg_for_conflicts` of
`pre_commit/git.py` is not under `src/`.  The raw merge-message blob is split
into lines; the tab-indented lines following a line exactly `Conflicts:`,
up to a blank line or the end of input, are the conflicted file paths, each
trimmed of its leading indent. -/
def parse_merge_msg_for_conflicts (msg : String) : List String :=
  ((conflictsSection (splitChar '\n' msg.toList)).map stripIndent).map
    (fun l => String.mk l)

theorem conflictsSection_no_marker (ls : List (List Char))
    (h : "Conflicts:".toList ∉ ls) : conflictsSection ls = [] := by
  induction ls with
  | nil => rfl
  | cons l rest ih =>
    simp only [List.mem_cons, not_or] at h
    have hne : l ≠ "Conflicts:".toList := fun hc => h.1 hc.symm
    simp only [conflictsSection, if_neg hne]
    exact ih h.2

theorem conflictsSection_marker (pre suffix : List (List Char))
    (h : "Conflicts:".toList ∉ pre) :
    conflictsSection (pre ++ "Conflicts:".toList :: suffix)
      = suffix.takeWhile (fun x => x ≠ []) := by
  induction pre with
  | nil => simp [conflictsSection]
  | cons l rest ih =>
    simp only [List.mem_cons, not_or] at h
    have hne : l ≠ "Conflicts:".toList := fun hc => h.1 hc.symm
    simp only [List.cons_append, conflictsSection, if_neg hne]
    exact ih h.2

/-- The merge message of `test_parse_merge_msg_for_conflicts` (MERGE_MSG,
with the quoted branch name simplified). -/
def mergeMsgExample : String :=
  "Merge branch foo into bar\n\nConflicts:\n\tconflict_file\n"

/-- OTHER_MERGE_MSG of the same test: MERGE_MSG with one more indented line. -/
def otherMergeMsgExample : String :=
  mergeMsgExample ++ "\tother_conflict_file\n"

/-- C6: `parse_merge_msg_for_conflicts` returns, in order, exactly the file
paths on the indented lines following a line exactly `Conflicts:`, each
trimmed of its leading indent, stopping at a blank line or the end of input;
a message with no `Conflicts:` line yields the empty list and is not an
error.  The two merge messages of `test_parse_merge_msg_for_conflicts`
evaluate to their expected outputs. -/
theorem parse_merge_msg_for_conflicts_spec :
    (∀ (msg : String) (pre suffix : List (List Char)),
        splitChar '\n' msg.toList = pre ++ "Conflicts:".toList :: suffix →
        "Conflicts:".toList ∉ pre →
        parse_merge_msg_for_conflicts msg
          = ((suffix.takeWhile (fun x => x ≠ [])).map stripIndent).map
              (fun l => String.mk l)) ∧
    (∀ msg : String, "Conflicts:".toList ∉ splitChar '\n' msg.toList →
        parse_merge_msg_for_conflicts msg = []) ∧
    parse_merge_msg_for_conflicts mergeMsgExample = ["conflict_file"] ∧
    parse_merge_msg_for_conflicts otherMergeMsgExample
      = ["conflict_file", "other_conflict_file"] := by
  refine ⟨?_, ?_, by decide, by decide⟩
  · intro msg pre suffix hsplit hpre
    unfold parse_merge_msg_for_conflicts
    rw [hsplit, conflictsSection_marker pre suffix hpre]
  · intro msg h
    unfold parse_merge_msg_for_conflicts
    rw [conflictsSection_no_marker _ h]
    rfl

/-- Witness for C6: the no-marker clause of
`parse_merge_msg_for_conflicts_spec` at a message without a `Conflicts:`
line, and the structural clause at `mergeMsgExample`. -/
theorem parse_merge_msg_for_conflicts_spec_witness :
    parse_merge_msg_for_conflicts "Merge branch foo into bar\n" = [] ∧
    parse_merge_msg_for_conflicts mergeMsgExample
      = ((([("\tconflict_file".toList), ("".toList)].takeWhile
            (fun x => x ≠ [])).map stripIndent).map (fun l => String.mk l)) :=
  ⟨parse_merge_msg_for_conflicts_spec.2.1 "Merge branch foo into bar\n" (by decide),
   parse_merge_msg_for_conflicts_spec.1 mergeMsgExample
     ["Merge branch foo into bar".toList, "".toList]
     [("\tconflict_file".toList), ("".toList)] (by decide) (by decide)⟩

/-- Modelled from the spec: the conflict-relevant state of one repository as
the conflict detector of `pre_commit/git.py` (not under `src/`) observes it:
the raw merge message, whether merge-state marker files (MERGE_MSG /
MERGE_HEAD equivalents) are present in the VCS metadata directory, the index
as a list of (stage number, path) entries, and the initialized submodules as
(relative path, nested state) pairs. -/
inductive Repo where
  | mk (mergeMsg : String) (markers : Bool) (index : List (Nat × String))
      (subs : List (String × Repo))

/-- Whether any index entry carries conflict stage 2 or 3. -/
def hasStagedConflicts (index : List (Nat × String)) : Bool :=
  index.any (fun e => e.1 == 2 || e.1 == 3)

mutual

/-- Modelled from the spec: `is_in_merge_conflict` of `pre_commit/git.py` is
not under `src/`.  Conflicted iff the index holds stage-2/3 entries or,
recursively, some initialized submodule itself reports conflicted; the
marker files are never consulted for the verdict. -/
def is_in_merge_conflict : Repo → Bool
  | .mk _ _ index subs => hasStagedConflicts index || anySubConflict subs

/-- Whether some submodule of the list reports conflicted. -/
def anySubConflict : List (String × Repo) → Bool
  | [] => false
  | (_, sub) :: rest => is_in_merge_conflict sub || anySubConflict rest

end

mutual

/-- Modelled from the spec: `get_conflicted_files` of `pre_commit/git.py` is
not under `src/`.  The Conflicted File Set is the union of the files listed
in the merge message's `Conflicts:` section, the paths of top-level index
entries carrying stage 2 or 3, and the re-rooted sets of the submodules
currently in conflict; the returned list models the set by its members. -/
def get_conflicted_files : Repo → List String
  | .mk mergeMsg _ index subs =>
    parse_merge_msg_for_conflicts mergeMsg
      ++ (index.filter (fun e => e.1 == 2 || e.1 == 3)).map (fun e => e.2)
      ++ subsConflictedFiles subs

/-- The union over submodules currently in conflict of their conflicted
files, re-rooted under the submodule's relative path. -/
def subsConflictedFiles : List (String × Repo) → List String
  | [] => []
  | (p, sub) :: rest =>
    (if is_in_merge_conflict sub then
        (get_conflicted_files sub).map (fun f => p ++ "/" ++ f)
      else [])
      ++ subsConflictedFiles rest

end

theorem anySubConflict_eq_any (subs : List (String × Repo)) :
    anySubConflict subs = subs.any (fun s => is_in_merge_conflict s.2) := by
  induction subs with
  | nil => rfl
  | cons s rest ih =>
    cases s with
    | mk p sub => simp [anySubConflict, ih]

theorem mem_subsConflictedFiles (subs : List (String × Repo)) (f : String) :
    f ∈ subsConflictedFiles subs ↔
      ∃ s ∈ subs, is_in_merge_conflict s.2 = true ∧
        ∃ g ∈ get_conflicted_files s.2, f = s.1 ++ "/" ++ g := by
  induction subs with
  | nil => simp [subsConflictedFiles]
  | cons s rest ih =>
    cases s with
    | mk p sub =>
      cases hc : is_in_merge_conflict sub with
      | true =>
        simp only [subsConflictedFiles, hc, if_true, List.mem_append,
          List.mem_map, ih, List.mem_cons]
        constructor
        · rintro (⟨g, hg, rfl⟩ | ⟨s, hs, hcs, g, hg, rfl⟩)
          · exact ⟨(p, sub), Or.inl rfl, hc, g, hg, rfl⟩
          · exact ⟨s, Or.inr hs, hcs, g, hg, rfl⟩
        · rintro ⟨s, hs | hs, hcs, g, hg, rfl⟩
          · cases hs
            exact Or.inl ⟨g, hg, rfl⟩
          · exact Or.inr ⟨s, hs, hcs, g, hg, rfl⟩
      | false =>
        simp only [subsConflictedFiles, hc, Bool.false_eq_true, if_false,
          List.nil_append, ih, List.mem_cons]
        constructor
        · rintro ⟨s, hs, hcs, g, hg, rfl⟩
          exact ⟨s, Or.inr hs, hcs, g, hg, rfl⟩
        · rintro ⟨s, hs | hs, hcs, g, hg, rfl⟩
          · cases hs
            rw [hc] at hcs
            cases hcs
          · exact ⟨s, hs, hcs, g, hg, rfl⟩

/-- C3: `is_in_merge_conflict` is false on a clean repository whatever the
marker files say; it is true exactly when the index contains stage-2/3
entries or, recursively, some initialized submodule reports conflicted; and
its verdict is independent of merge-state marker-file presence, so it is
false right after an aborted cherry-pick (markers possibly still present,
stages cleared) and marker presence alone never makes it true. -/
theorem is_in_merge_conflict_spec (msg : String) (markers markers2 : Bool)
    (index : List (Nat × String)) (subs : List (String × Repo)) :
    is_in_merge_conflict (.mk msg markers [] []) = false ∧
    (is_in_merge_conflict (.mk msg markers index subs) = true ↔
      (∃ e ∈ index, e.1 = 2 ∨ e.1 = 3) ∨
      ∃ s ∈ subs, is_in_merge_conflict s.2 = true) ∧
    is_in_merge_conflict (.mk msg markers index subs)
      = is_in_merge_conflict (.mk msg markers2 index subs) := by
  refine ⟨rfl, ?_, rfl⟩
  show (hasStagedConflicts index || anySubConflict subs) = true ↔ _
  rw [Bool.or_eq_true, anySubConflict_eq_any]
  simp [hasStagedConflicts, List.any_eq_true]

/-- Witness for C3: a repository with marker files present but a clean index
is not conflicted, and a repository whose initialized submodule carries a
stage-2 entry is conflicted. -/
theorem is_in_merge_conflict_spec_witness :
    is_in_merge_conflict (.mk "" true [] []) = false ∧
    is_in_merge_conflict
      (.mk "" false [(0, "conflict_file")] [("sub", .mk "" false [(2, "f")] [])])
      = true :=
  ⟨(is_in_merge_conflict_spec "" true true [] []).1,
   (is_in_merge_conflict_spec "" false false [(0, "conflict_file")]
      [("sub", .mk "" false [(2, "f")] [])]).2.1.mpr
     (Or.inr ⟨("sub", .mk "" false [(2, "f")] []),
       List.mem_singleton.mpr rfl, rfl⟩)⟩

/-- The repository state of `test_get_conflicted_files` right after
`resolve_conflict()`: the merge is still open (marker files present, the
merge message lists `conflict_file` under `Conflicts:`), and `conflict_file`
has been resolved and re-added as a single-stage (stage 0) index entry. -/
def resolvedMergeRepo : Repo :=
  .mk mergeMsgExample true [(0, "conflict_file")] []

/-- Counterexample to C1 as stated: in an open merge, `conflict_file` has
been resolved and re-added as a single-stage entry (no stage-2/3 entries at
all), yet it still appears in `get_conflicted_files`, because the merge
message's `Conflicts:` section lists it — exactly the behaviour the tests
`test_get_conflicted_files` and `test_get_conflicted_files_unstaged_files`
assert. -/
theorem get_conflicted_files_counterexample :
    hasStagedConflicts [(0, "conflict_file")] = false ∧
    "conflict_file" ∈ get_conflicted_files resolvedMergeRepo := by
  refine ⟨rfl, ?_⟩
  decide

/-- C1 (amended): a file resolved and re-added as a single-stage entry still
appears in `get_conflicted_files()` whenever the merge message's
`Conflicts:` section lists it; a file is in the result exactly when it is
listed in that section, or carries a stage-2/3 index entry, or is re-rooted
from a submodule currently in conflict — so only files outside all three
sources (e.g. unstaged bystander files) are excluded. -/
theorem get_conflicted_files_spec (msg : String) (markers : Bool)
    (index : List (Nat × String)) (subs : List (String × Repo)) (f : String) :
    (f ∈ parse_merge_msg_for_conflicts msg →
      f ∈ get_conflicted_files (.mk msg markers index subs)) ∧
    (f ∈ get_conflicted_files (.mk msg markers index subs) ↔
      f ∈ parse_merge_msg_for_conflicts msg ∨
      (∃ e ∈ index, (e.1 = 2 ∨ e.1 = 3) ∧ e.2 = f) ∨
      ∃ s ∈ subs, is_in_merge_conflict s.2 = true ∧
        ∃ g ∈ get_conflicted_files s.2, f = s.1 ++ "/" ++ g) := by
  have hmem : f ∈ get_conflicted_files (.mk msg markers index subs) ↔
      f ∈ parse_merge_msg_for_conflicts msg ∨
      (∃ e ∈ index, (e.1 = 2 ∨ e.1 = 3) ∧ e.2 = f) ∨
      ∃ s ∈ subs, is_in_merge_conflict s.2 = true ∧
        ∃ g ∈ get_conflicted_files s.2, f = s.1 ++ "/" ++ g := by
    show f ∈ parse_merge_msg_for_conflicts msg
        ++ (index.filter (fun e => e.1 == 2 || e.1 == 3)).map (fun e => e.2)
        ++ subsConflictedFiles subs ↔ _
    rw [List.mem_append, List.mem_append, mem_subsConflictedFiles]
    simp only [List.mem_map, List.mem_filter, Bool.or_eq_true, beq_iff_eq]
    constructor
    · rintro ((h | ⟨e, ⟨he, hst⟩, rfl⟩) | h)
      · exact Or.inl h
      · exact Or.inr (Or.inl ⟨e, he, hst, rfl⟩)
      · exact Or.inr (Or.inr h)
    · rintro (h | ⟨e, he, hst, hef⟩ | h)
      · exact Or.inl (Or.inl h)
      · exact Or.inl (Or.inr ⟨e, ⟨he, hst⟩, hef⟩)
      · exact Or.inr h
  exact ⟨fun h => hmem.mpr (Or.inl h), hmem⟩

/-- Witness for C1: `get_conflicted_files_spec` at the state of
`test_get_conflicted_files`: the resolved `conflict_file`, listed in the
merge message, is in the result. -/
theorem get_conflicted_files_spec_witness :
    "conflict_file" ∈ get_conflicted_files
      (.mk mergeMsgExample true [(0, "conflict_file")] []) :=
  (get_conflicted_files_spec mergeMsgExample true [(0, "conflict_file")] []
    "conflict_file").1 (by decide)

/-- Modelled from the spec: the kinds of file change a VCS diff reports, the
diff-filter alphabet Added/Copied/Modified/Renamed/Type-changed/Deleted/
Unmerged/Unknown/Broken. -/
inductive ChangeKind where
  | added
  | copied
  | modified
  | renamed
  | typeChanged
  | deleted
  | unmerged
  | unknown
  | brokenPairing
deriving DecidableEq

/-- Modelled from the spec: the diff-filter used by the staged-file
enumeration — it admits only Added/Copied/Modified/Renamed/Type-changed
entries, deliberately excluding Deleted, Unmerged, Unknown and Broken. -/
def stagedDiffFilter : ChangeKind → Bool
  | .added => true
  | .copied => true
  | .modified => true
  | .renamed => true
  | .typeChanged => true
  | .deleted => false
  | .unmerged => false
  | .unknown => false
  | .brokenPairing => false

/-- Modelled from the spec: `get_staged_files` of `pre_commit/git.py` is not
under `src/`.  The index-vs-HEAD diff is the ambient input, a list of
(change kind, path) entries; the enumeration returns the paths of the
entries admitted by the diff-filter. -/
def get_staged_files (diff : List (ChangeKind × String)) : List String :=
  (diff.filter (fun e => stagedDiffFilter e.1)).map (fun e => e.2)

/-- C7: a file staged and then un-staged before commit never appears in
`get_staged_files`: its diff entries (if any) are Deleted, and the
diff-filter admits exactly the Added/Copied/Modified/Renamed/Type-changed
kinds, rejecting Deleted — so a path all of whose entries are Deleted is
absent from the result. -/
theorem get_staged_files_spec (diff : List (ChangeKind × String)) (p : String) :
    ((∀ k, (k, p) ∈ diff → k = ChangeKind.deleted) →
      p ∉ get_staged_files diff) ∧
    (p ∈ get_staged_files diff ↔
      ∃ e ∈ diff, e.2 = p ∧ stagedDiffFilter e.1 = true) ∧
    stagedDiffFilter .added = true ∧ stagedDiffFilter .copied = true ∧
    stagedDiffFilter .modified = true ∧ stagedDiffFilter .renamed = true ∧
    stagedDiffFilter .typeChanged = true ∧ stagedDiffFilter .deleted = false ∧
    stagedDiffFilter .unmerged = false ∧ stagedDiffFilter .unknown = false ∧
    stagedDiffFilter .brokenPairing = false := by
  have hmem : p ∈ get_staged_files diff ↔
      ∃ e ∈ diff, e.2 = p ∧ stagedDiffFilter e.1 = true := by
    unfold get_staged_files
    rw [List.mem_map]
    constructor
    · rintro ⟨e, he, rfl⟩
      rw [List.mem_filter] at he
      exact ⟨e, he.1, rfl, he.2⟩
    · rintro ⟨e, he, rfl, hf⟩
      exact ⟨e, List.mem_filter.mpr ⟨he, hf⟩, rfl⟩
  refine ⟨?_, hmem, rfl, rfl, rfl, rfl, rfl, rfl, rfl, rfl, rfl⟩
  intro hall hmem2
  obtain ⟨e, he, hep, hf⟩ := hmem.mp hmem2
  have he2 : (e.1, p) ∈ diff := by
    rw [← hep, Prod.mk.eta]
    exact he
  have hk := hall e.1 he2
  rw [hk] at hf
  cases hf

/-- Witness for C7: the scenario of `test_get_staged_files_deleted` — the
committed file `test` was removed from the index, so the diff carries only a
Deleted entry for it and `get_staged_files` omits it. -/
theorem get_staged_files_spec_witness :
    "test" ∉ get_staged_files [(ChangeKind.deleted, "test")] :=
  (get_staged_files_spec [(ChangeKind.deleted, "test")] "test").1 (by
    intro k hk
    simp at hk
    exact hk)

/-- Modelled from the spec: what the ambient VCS world knows — for each
working directory, the top-level path of the enclosing repository, or
nothing when the directory is outside any repository (or inside a bare one
with no working tree).  Nested subdirectories of one repository map to the
same top-level path by construction. -/
structure GitWorld where
  repoOf : String → Option String

/-- A captured subprocess result: return code, stdout, stderr. -/
structure CmdResult where
  retcode : Nat
  stdout : String
  stderr : String
deriving DecidableEq

/-- Modelled from the spec: the "show top-level" query answered by the VCS
binary for a given working directory (stdout already normalized, trailing
separators stripped); outside a repository it exits non-zero with a raw
diagnostic on stderr. -/
def showToplevel (w : GitWorld) (cwd : String) : CmdResult :=
  match w.repoOf cwd with
  | some root => ⟨0, root, ""⟩
  | none => ⟨128, "", "fatal: Not a git repository"⟩

/-- The distinguished error of the root resolver. -/
inductive GetRootError where
  | notARepository (diagnostic : String)
deriving DecidableEq

/-- Modelled from the spec: `get_root` of `pre_commit/git.py` is not under
`src/`.  It runs the "show top-level" query; on non-zero exit it fails with
the `NotARepository` error carrying the raw diagnostic text, on success it
returns the path. -/
def get_root (w : GitWorld) (cwd : String) : Except GetRootError String :=
  let result := showToplevel w cwd
  if result.retcode ≠ 0 then .error (.notARepository result.stderr)
  else .ok result.stdout

/-- C8: called from the repository root or from any nested subdirectory of
the same repository (both resolve to the same top-level path `r`),
`get_root` returns the identical path `r`; called from a directory outside
any repository it always fails with the `NotARepository` error rather than
returning a path. -/
theorem get_root_spec (w : GitWorld) (d1 d2 outside root : String) :
    (w.repoOf d1 = some root → w.repoOf d2 = some root →
      get_root w d1 = Except.ok root ∧ get_root w d1 = get_root w d2) ∧
    (w.repoOf outside = none →
      get_root w outside
        = Except.error (.notARepository "fatal: Not a git repository")) := by
  constructor
  · intro h1 h2
    have e1 : get_root w d1 = Except.ok root := by
      simp [get_root, showToplevel, h1]
    have e2 : get_root w d2 = Except.ok root := by
      simp [get_root, showToplevel, h2]
    exact ⟨e1, by rw [e1, e2]⟩
  · intro h
    simp [get_root, showToplevel, h]

/-- Witness for C8: `get_root_spec` on a concrete world with one repository
at "/repo" enclosing the nested directory "/repo/foo", and the outside
directory "/tmp". -/
theorem get_root_spec_witness :
    (get_root ⟨fun d => if d = "/repo" ∨ d = "/repo/foo" then some "/repo" else none⟩
        "/repo" = Except.ok "/repo" ∧
      get_root ⟨fun d => if d = "/repo" ∨ d = "/repo/foo" then some "/repo" else none⟩
        "/repo"
        = get_root ⟨fun d => if d = "/repo" ∨ d = "/repo/foo" then some "/repo" else none⟩
        "/repo/foo") ∧
    get_root ⟨fun d => if d = "/repo" ∨ d = "/repo/foo" then some "/repo" else none⟩
        "/tmp"
      = Except.error (.notARepository "fatal: Not a git repository") :=
  ⟨(get_root_spec ⟨fun d => if d = "/repo" ∨ d = "/repo/foo" then some "/repo" else none⟩
      "/repo" "/repo/foo" "/tmp" "/repo").1 (by decide) (by decide),
   (get_root_spec ⟨fun d => if d = "/repo" ∨ d = "/repo/foo" then some "/repo" else none⟩
      "/repo" "/repo/foo" "/tmp" "/repo").2 (by decide)⟩
